import Mathlib

/-!
Verification of the stock-tracker HTTP service (`src/main.py`, `src/crud.py`,
`src/models.py`, `src/schemas.py`).

Shallow embedding conventions:
* Prices (Python `float`) are modelled as exact rationals `ℚ`; Python
  `round(x, 2)` becomes `round2` below (round to nearest at two decimal
  places; the tie direction is irrelevant to every claim proved here).
* The SQLite table of `Stock` rows is a `List Stock` in insertion order;
  the autoincrement id is the position at insertion time and `timestamp`
  (a `DateTime` defaulting to `utcnow`) is an abstract instant `ℕ` passed
  in explicitly.
* SQLAlchemy `order_by(Stock.timestamp.desc())` is modelled as a (stable)
  insertion sort by the decidable relation `tsDesc`.
* The yfinance provider is an explicit parameter
  `provider : String → List ℚ` giving the Close column of
  `yf.Ticker(t).history(period="1d")`; `data.empty` is the empty list and
  `data.tail(1)["Close"].iloc[0]` is the last element.
* FastAPI responses are `ApiResult α`: `ok` (200), `notFound detail`
  (HTTPException 404 with its detail string), `validationError` (the 422
  produced by `Query(20, ge=2, le=1000)` before the handler body runs).
  Read-only handlers take the store as input and return only a response:
  the source handlers for `/history`, `/analysis` and `/chart` perform no
  insert, so the store is unchanged by construction; the one writing
  handler, `fetch_stock`, returns the updated store explicitly.
-/

namespace StockTracker

/-- Python `str.upper()` (tickers are ASCII): uppercase every character.
Written over the character list so that it evaluates inside the kernel. -/
def strUpper (s : String) : String := ⟨s.data.map Char.toUpper⟩

/-- Python `round(x, 2)`: round to the nearest multiple of 1/100 (written
with the executable `Rat.floor`; ties are irrelevant to every claim here). -/
def round2 (x : ℚ) : ℚ := (Rat.floor (x * 100 + 1 / 2) : ℚ) / 100

/-- One row of the `stocks` table (`models.Stock`). -/
structure Stock where
  id : ℕ
  ticker : String
  price : ℚ
  timestamp : ℕ
  deriving DecidableEq

/-- Response schema of `GET /stock/{ticker}` (`schemas.StockPrice`). -/
structure StockPrice where
  ticker : String
  price : ℚ
  deriving DecidableEq

/-- Response schema of `GET /history/{ticker}` items (`schemas.HistoryItem`). -/
structure HistoryItem where
  ticker : String
  price : ℚ
  timestamp : ℕ
  deriving DecidableEq

/-- Response schema of `GET /analysis/{ticker}` (`schemas.AnalysisResult`).
The four price fields and `pct_change` are declared nullable (`float | None`),
hence `Option ℚ`. -/
structure AnalysisResult where
  ticker : String
  count : ℕ
  latest_price : Option ℚ
  min_price : Option ℚ
  max_price : Option ℚ
  avg_price : Option ℚ
  pct_change : Option ℚ
  deriving DecidableEq

/-- Outcome of an HTTP request: 200 payload, 404 with a detail string, or the
transport-level 422 validation rejection of an out-of-range query parameter. -/
inductive ApiResult (α : Type) where
  | ok : α → ApiResult α
  | notFound : String → ApiResult α
  | validationError : ApiResult α
  deriving DecidableEq

/-- `crud.add_stock`: append one row with the ticker uppercased; the store
assigns the next id and the current instant.  Returns the new row and the
updated store. -/
def add_stock (db : List Stock) (ticker : String) (price : ℚ) (now : ℕ) :
    Stock × List Stock :=
  let new_stock : Stock := ⟨db.length, strUpper ticker, price, now⟩
  (new_stock, db ++ [new_stock])

/-- `crud.get_stocks`: all rows whose ticker equals the uppercased argument,
in insertion (primary-key) order. -/
def get_stocks (db : List Stock) (ticker : String) : List Stock :=
  db.filter (fun r => r.ticker == strUpper ticker)

/-- `Stock.timestamp.desc()`: row `a` precedes row `b` when `a` is at least
as recent. -/
def tsDesc (a b : Stock) : Prop := b.timestamp ≤ a.timestamp

instance : DecidableRel tsDesc := fun a b => Nat.decLe b.timestamp a.timestamp

instance : IsTotal Stock tsDesc := ⟨fun a b => le_total b.timestamp a.timestamp⟩

instance : IsTrans Stock tsDesc :=
  ⟨fun _ _ _ hab hbc => le_trans hbc hab⟩

/-- `crud.get_stocks_latest_n`: rows for the ticker ordered by timestamp
descending, limited to `n`. -/
def get_stocks_latest_n (db : List Stock) (ticker : String) (n : ℕ) :
    List Stock :=
  (List.insertionSort tsDesc (db.filter (fun r => r.ticker == strUpper ticker))).take n

/-- Detail string of the 404 raised by `/history`, `/analysis`, `/chart`. -/
def notFoundMsg (ticker : String) : String :=
  "No records found for ticker \x27" ++ strUpper ticker ++ "\x27"

/-- Detail string of the 404 raised by `/stock` when the provider is empty. -/
def noDataMsg (ticker : String) : String :=
  "No data found for ticker \x27" ++ strUpper ticker ++ "\x27"

/-- `main.fetch_stock` (`GET /stock/{ticker}`): if the provider window is
empty, 404 and the store untouched; otherwise take the Close of the last row,
persist it via `add_stock`, and answer with the uppercased ticker and the
price rounded to 2 decimals. -/
def fetch_stock (provider : String → List ℚ) (db : List Stock)
    (ticker : String) (now : ℕ) : ApiResult StockPrice × List Stock :=
  match provider ticker with
  | [] => (.notFound (noDataMsg ticker), db)
  | p :: ps =>
    let price := ps.getLastD p
    let added := add_stock db ticker price now
    (.ok ⟨strUpper ticker, round2 price⟩, added.2)

/-- `main.stock_history` (`GET /history/{ticker}`): 404 when no rows, else
the stored rows serialized in store order. -/
def stock_history (db : List Stock) (ticker : String) :
    ApiResult (List HistoryItem) :=
  let records := get_stocks db ticker
  if records.isEmpty then .notFound (notFoundMsg ticker)
  else .ok (records.map (fun r => ⟨r.ticker, r.price, r.timestamp⟩))

/-- Python `min` over the non-empty list `p :: ps`. -/
def minOf (p : ℚ) (ps : List ℚ) : ℚ := ps.foldl min p

/-- Python `max` over the non-empty list `p :: ps`. -/
def maxOf (p : ℚ) (ps : List ℚ) : ℚ := ps.foldl max p

/-- `sum(prices) / len(prices)` over the non-empty list `p :: ps`. -/
def avgOf (p : ℚ) (ps : List ℚ) : ℚ :=
  (p :: ps).sum / ((p :: ps).length : ℚ)

/-- The body of `main.analyze_ticker` after the emptiness check, applied to
the non-empty oldest-first price window `p :: ps` (`prices[0] = p`,
`prices[-1] = ps.getLastD p`): full-precision statistics, each rounded to two
decimals at the response boundary, with the divide-by-zero guard on
`pct_change`. -/
def analyzePrices (ticker : String) (p : ℚ) (ps : List ℚ) : AnalysisResult :=
  { ticker := strUpper ticker
    count := (p :: ps).length
    latest_price := some (round2 (ps.getLastD p))
    min_price := some (round2 (minOf p ps))
    max_price := some (round2 (maxOf p ps))
    avg_price := some (round2 (avgOf p ps))
    pct_change :=
      if p ≠ 0 then some (round2 ((ps.getLastD p - p) / p * 100)) else none }

/-- `main.analyze_ticker` (`GET /analysis/{ticker}?n=`): the transport
rejects `n` outside `2..1000` before the handler body runs; otherwise the
newest-first window of at most `n` rows is fetched, reversed to oldest-first,
404 if empty, else analyzed. -/
def analyze_ticker (db : List Stock) (ticker : String) (n : ℕ) :
    ApiResult AnalysisResult :=
  if 2 ≤ n ∧ n ≤ 1000 then
    match (get_stocks_latest_n db ticker n).reverse with
    | [] => .notFound (notFoundMsg ticker)
    | r :: rs => .ok (analyzePrices ticker r.price (rs.map Stock.price))
  else .validationError

/-- `main.chart_ticker` (`GET /chart/{ticker}?n=`): same validation, window
and emptiness handling as `/analysis`; the opaque PNG renderer is modelled by
returning the oldest-first (timestamp, price) series handed to it. -/
def chart_ticker (db : List Stock) (ticker : String) (n : ℕ) :
    ApiResult (List (ℕ × ℚ)) :=
  if 2 ≤ n ∧ n ≤ 1000 then
    match (get_stocks_latest_n db ticker n).reverse with
    | [] => .notFound (notFoundMsg ticker)
    | r :: rs => .ok ((r :: rs).map (fun s => (s.timestamp, s.price)))
  else .validationError

/-- Default of the `n` query parameter on `/analysis` and `/chart`. -/
def defaultWindowN : ℕ := 20

/-- The oldest-first price window `/analysis` computes over. -/
def windowPrices (db : List Stock) (ticker : String) (n : ℕ) : List ℚ :=
  ((get_stocks_latest_n db ticker n).reverse).map Stock.price

/-! ### Helper lemmas -/

theorem round2_eq (x : ℚ) : round2 x = ((⌊x * 100 + 1 / 2⌋ : ℤ) : ℚ) / 100 :=
  rfl

/-- `round2` agrees with Mathlib's round-to-nearest. -/
theorem round2_eq_round (x : ℚ) : round2 x = (round (x * 100) : ℚ) / 100 := by
  rw [round2_eq, round_eq]

theorem round2_mono {x y : ℚ} (h : x ≤ y) : round2 x ≤ round2 y := by
  rw [round2_eq, round2_eq]
  have h1 : ⌊x * 100 + 1 / 2⌋ ≤ ⌊y * 100 + 1 / 2⌋ :=
    Int.floor_le_floor (by linarith)
  have h2 : ((⌊x * 100 + 1 / 2⌋ : ℤ) : ℚ) ≤ ((⌊y * 100 + 1 / 2⌋ : ℤ) : ℚ) := by
    exact_mod_cast h1
  linarith

theorem minOf_le (p : ℚ) (ps : List ℚ) : ∀ q ∈ p :: ps, minOf p ps ≤ q := by
  induction ps generalizing p with
  | nil =>
    intro q hq
    have hqp : q = p := by simpa using hq
    simp [minOf, hqp]
  | cons a as ih =>
    intro q hq
    have hrw : minOf p (a :: as) = minOf (min p a) as := rfl
    have hbase : minOf (min p a) as ≤ min p a :=
      ih (min p a) (min p a) (List.mem_cons_self _ _)
    rw [hrw]
    rcases List.mem_cons.mp hq with hqp | hmem
    · subst hqp; exact hbase.trans (min_le_left _ _)
    · rcases List.mem_cons.mp hmem with hqa | htail
      · subst hqa; exact hbase.trans (min_le_right _ _)
      · exact ih (min p a) q (List.mem_cons_of_mem _ htail)

theorem le_maxOf (p : ℚ) (ps : List ℚ) : ∀ q ∈ p :: ps, q ≤ maxOf p ps := by
  induction ps generalizing p with
  | nil =>
    intro q hq
    have hqp : q = p := by simpa using hq
    simp [maxOf, hqp]
  | cons a as ih =>
    intro q hq
    have hrw : maxOf p (a :: as) = maxOf (max p a) as := rfl
    have hbase : max p a ≤ maxOf (max p a) as :=
      ih (max p a) (max p a) (List.mem_cons_self _ _)
    rw [hrw]
    rcases List.mem_cons.mp hq with hqp | hmem
    · subst hqp; exact (le_max_left _ _).trans hbase
    · rcases List.mem_cons.mp hmem with hqa | htail
      · subst hqa; exact (le_max_right _ _).trans hbase
      · exact ih (max p a) q (List.mem_cons_of_mem _ htail)

theorem length_pos_q (p : ℚ) (ps : List ℚ) : (0 : ℚ) < ((p :: ps).length : ℚ) := by
  exact_mod_cast Nat.succ_pos ps.length

theorem minOf_le_avgOf (p : ℚ) (ps : List ℚ) : minOf p ps ≤ avgOf p ps := by
  have hsum : (p :: ps).length • minOf p ps ≤ (p :: ps).sum :=
    List.card_nsmul_le_sum (p :: ps) (minOf p ps) (minOf_le p ps)
  rw [avgOf, le_div_iff₀ (length_pos_q p ps)]
  calc minOf p ps * ((p :: ps).length : ℚ)
      = ((p :: ps).length : ℚ) * minOf p ps := mul_comm _ _
    _ = (p :: ps).length • minOf p ps := (nsmul_eq_mul _ _).symm
    _ ≤ (p :: ps).sum := hsum

theorem avgOf_le_maxOf (p : ℚ) (ps : List ℚ) : avgOf p ps ≤ maxOf p ps := by
  have hsum : (p :: ps).sum ≤ (p :: ps).length • maxOf p ps :=
    List.sum_le_card_nsmul (p :: ps) (maxOf p ps) (le_maxOf p ps)
  rw [avgOf, div_le_iff₀ (length_pos_q p ps)]
  calc (p :: ps).sum ≤ (p :: ps).length • maxOf p ps := hsum
    _ = ((p :: ps).length : ℚ) * maxOf p ps := nsmul_eq_mul _ _
    _ = maxOf p ps * ((p :: ps).length : ℚ) := mul_comm _ _

/-- Destructor for a 200 answer of `/analysis`: the bounds on `n` held and
the result is the analysis of a non-empty oldest-first window. -/
theorem analyze_ok_elim {db : List Stock} {t : String} {n : ℕ}
    {res : AnalysisResult} (h : analyze_ticker db t n = .ok res) :
    (2 ≤ n ∧ n ≤ 1000) ∧
      ∃ r rs, (get_stocks_latest_n db t n).reverse = r :: rs ∧
        res = analyzePrices t r.price (rs.map Stock.price) := by
  by_cases hcond : 2 ≤ n ∧ n ≤ 1000
  · rcases hrev : (get_stocks_latest_n db t n).reverse with _ | ⟨r, rs⟩
    · unfold analyze_ticker at h
      rw [if_pos hcond, hrev] at h
      exact ApiResult.noConfusion h
    · unfold analyze_ticker at h
      rw [if_pos hcond, hrev] at h
      refine ⟨hcond, r, rs, rfl, ?_⟩
      injection h with h2
      exact h2.symm
  · unfold analyze_ticker at h
    rw [if_neg hcond] at h
    exact ApiResult.noConfusion h

/-! ### Claims -/

/-- C8: on the concrete oldest-first window [100, 110, 90, 120] (stored here
as four rows with increasing timestamps), `GET /analysis` returns count = 4,
latest_price = 120, min_price = 90, max_price = 120, avg_price = 105,
pct_change = 20. -/
theorem analysis_example_window :
    analyze_ticker
      [⟨0, "ABC", 100, 1⟩, ⟨1, "ABC", 110, 2⟩, ⟨2, "ABC", 90, 3⟩,
       ⟨3, "ABC", 120, 4⟩] "ABC" 20 =
      .ok ⟨"ABC", 4, some 120, some 90, some 120, some 105, some 20⟩ := by
  have h1 : analyze_ticker
      [⟨0, "ABC", 100, 1⟩, ⟨1, "ABC", 110, 2⟩, ⟨2, "ABC", 90, 3⟩,
       ⟨3, "ABC", 120, 4⟩] "ABC" 20 =
      .ok (analyzePrices "ABC" 100 [110, 90, 120]) := rfl
  rw [h1]
  have htick : strUpper "ABC" = "ABC" := rfl
  simp only [analyzePrices, List.getLastD, minOf, maxOf, avgOf, List.foldl,
    List.sum_cons, List.sum_nil, List.length_cons, List.length_nil, htick,
    AnalysisResult.mk.injEq, ApiResult.ok.injEq]
  norm_num [round2_eq, min_def, max_def]

theorem round2_zero : round2 0 = 0 := by
  rw [round2_eq]; norm_num

/-- C1: every 200 answer of `GET /analysis/{ticker}` is computed over a
non-empty oldest-first window whose head is the oldest price `p`;
`pct_change` equals `(last - first) / first * 100` rounded to 2 decimals when
`p ≠ 0`, and is null exactly when `p = 0` — in the zero case the response is
still this 200 answer, so no error is signalled. -/
theorem pct_change_spec {db : List Stock} {t : String} {n : ℕ}
    {res : AnalysisResult} (h : analyze_ticker db t n = .ok res) :
    ∃ p ps, windowPrices db t n = p :: ps ∧
      (p ≠ 0 → res.pct_change = some (round2 ((ps.getLastD p - p) / p * 100))) ∧
      (res.pct_change = none ↔ p = 0) := by
  obtain ⟨-, r, rs, hrev, hres⟩ := analyze_ok_elim h
  refine ⟨r.price, rs.map Stock.price, ?_, ?_, ?_⟩
  · rw [windowPrices, hrev]; rfl
  · intro hp
    rw [hres]
    simp [analyzePrices, hp]
  · rw [hres]
    by_cases hp : r.price = 0
    · simp [analyzePrices, hp]
    · simp [analyzePrices, hp]

theorem pct_change_spec_witness :
    ∃ p ps, windowPrices [⟨0, "XY", 50, 1⟩, ⟨1, "XY", 60, 2⟩] "XY" 2 = p :: ps ∧
      (p ≠ 0 → (analyzePrices "XY" 50 [60]).pct_change =
        some (round2 ((ps.getLastD p - p) / p * 100))) ∧
      ((analyzePrices "XY" 50 [60]).pct_change = none ↔ p = 0) :=
  @pct_change_spec [⟨0, "XY", 50, 1⟩, ⟨1, "XY", 60, 2⟩] "XY" 2
    (analyzePrices "XY" 50 [60]) rfl

/-- C2: every 200 answer of `GET /analysis/{ticker}` satisfies, over its
non-empty window, `min ≤ avg ≤ max` at full precision, `min ≤ q ≤ max` for
every window element `q`, and — after the four price fields are rounded to 2
decimals at the response boundary — the rounded `min_price ≤ avg_price ≤
max_price`, the rounded `latest_price` lies between them (though it need not
be extremal), and the rounded window elements stay inside
`[min_price, max_price]`. -/
theorem analysis_bounds {db : List Stock} {t : String} {n : ℕ}
    {res : AnalysisResult} (h : analyze_ticker db t n = .ok res) :
    ∃ p ps mn av mx lp, windowPrices db t n = p :: ps ∧
      res.min_price = some mn ∧ res.avg_price = some av ∧
      res.max_price = some mx ∧ res.latest_price = some lp ∧
      minOf p ps ≤ avgOf p ps ∧ avgOf p ps ≤ maxOf p ps ∧
      (∀ q ∈ p :: ps, minOf p ps ≤ q ∧ q ≤ maxOf p ps) ∧
      mn ≤ av ∧ av ≤ mx ∧ mn ≤ lp ∧ lp ≤ mx ∧
      (∀ q ∈ p :: ps, mn ≤ round2 q ∧ round2 q ≤ mx) := by
  obtain ⟨-, r, rs, hrev, hres⟩ := analyze_ok_elim h
  set p := r.price
  set ps := rs.map Stock.price
  have hlast : ps.getLastD p ∈ p :: ps := List.getLastD_mem_cons ps p
  refine ⟨p, ps, round2 (minOf p ps), round2 (avgOf p ps), round2 (maxOf p ps),
    round2 (ps.getLastD p), ?_, ?_, ?_, ?_, ?_, ?_, ?_, ?_, ?_, ?_, ?_, ?_, ?_⟩
  · rw [windowPrices, hrev]; rfl
  · rw [hres]; rfl
  · rw [hres]; rfl
  · rw [hres]; rfl
  · rw [hres]; rfl
  · exact minOf_le_avgOf p ps
  · exact avgOf_le_maxOf p ps
  · exact fun q hq => ⟨minOf_le p ps q hq, le_maxOf p ps q hq⟩
  · exact round2_mono (minOf_le_avgOf p ps)
  · exact round2_mono (avgOf_le_maxOf p ps)
  · exact round2_mono (minOf_le p ps _ hlast)
  · exact round2_mono (le_maxOf p ps _ hlast)
  · exact fun q hq =>
      ⟨round2_mono (minOf_le p ps q hq), round2_mono (le_maxOf p ps q hq)⟩

theorem analysis_bounds_witness :
    ∃ p ps mn av mx lp,
      windowPrices [⟨0, "MM", 4, 1⟩, ⟨1, "MM", 9, 2⟩] "MM" 5 = p :: ps ∧
      (analyzePrices "MM" 4 [9]).min_price = some mn ∧
      (analyzePrices "MM" 4 [9]).avg_price = some av ∧
      (analyzePrices "MM" 4 [9]).max_price = some mx ∧
      (analyzePrices "MM" 4 [9]).latest_price = some lp ∧
      minOf p ps ≤ avgOf p ps ∧ avgOf p ps ≤ maxOf p ps ∧
      (∀ q ∈ p :: ps, minOf p ps ≤ q ∧ q ≤ maxOf p ps) ∧
      mn ≤ av ∧ av ≤ mx ∧ mn ≤ lp ∧ lp ≤ mx ∧
      (∀ q ∈ p :: ps, mn ≤ round2 q ∧ round2 q ≤ mx) :=
  @analysis_bounds [⟨0, "MM", 4, 1⟩, ⟨1, "MM", 9, 2⟩] "MM" 5
    (analyzePrices "MM" 4 [9]) rfl

/-- C9: for a ticker with exactly one stored record, `GET /analysis` with any
valid `n` (2 ≤ n ≤ 1000) answers 200 with `count = 1`, all four price fields
equal to the record's price rounded to 2 decimals, and `pct_change = 0` when
that price is nonzero: the bound `n ≥ 2` does not make the analyzed window
hold at least 2 records. -/
theorem analysis_single_record (r : Stock) (t : String) (n : ℕ)
    (h2 : 2 ≤ n) (h1000 : n ≤ 1000) (ht : r.ticker = strUpper t) :
    analyze_ticker [r] t n =
      .ok ⟨strUpper t, 1, some (round2 r.price), some (round2 r.price),
           some (round2 r.price), some (round2 r.price),
           if r.price ≠ 0 then some 0 else none⟩ := by
  have hfilter : [r].filter (fun s => s.ticker == strUpper t) = [r] := by
    simp [List.filter, ht]
  have hlatest : get_stocks_latest_n [r] t n = [r] := by
    rw [get_stocks_latest_n, hfilter,
      show List.insertionSort tsDesc [r] = [r] from rfl]
    exact List.take_of_length_le (by simpa using Nat.le_of_lt h2)
  have hfields : analyzePrices t r.price [] =
      ⟨strUpper t, 1, some (round2 r.price), some (round2 r.price),
       some (round2 r.price), some (round2 r.price),
       if r.price ≠ 0 then some 0 else none⟩ := by
    unfold analyzePrices
    simp [minOf, maxOf, avgOf, round2_zero]
  unfold analyze_ticker
  rw [if_pos (And.intro h2 h1000), hlatest]
  exact congrArg ApiResult.ok hfields

theorem analysis_single_record_witness :
    analyze_ticker [⟨5, "AAPL", 3, 7⟩] "aapl" 20 =
      .ok ⟨"AAPL", 1, some 3, some 3, some 3, some 3, some 0⟩ := by
  have h := analysis_single_record ⟨5, "AAPL", 3, 7⟩ "aapl" 20
    (by norm_num) (by norm_num) rfl
  rw [h]
  have e1 : strUpper "aapl" = "AAPL" := rfl
  have e2 : round2 3 = 3 := by rw [round2_eq]; norm_num
  have e3 : (if (3 : ℚ) ≠ 0 then (some 0 : Option ℚ) else none) = some 0 := by
    norm_num
  rw [e1, e2, e3]

/-- C10: although the response schema declares `latest_price`, `min_price`,
`max_price` and `avg_price` nullable, every 200 answer of
`GET /analysis/{ticker}` carries all four non-null; `pct_change` is the one
field that can be null, and actually is on a stored zero price. -/
theorem analysis_fields_not_null {db : List Stock} {t : String} {n : ℕ}
    {res : AnalysisResult} (h : analyze_ticker db t n = .ok res) :
    (res.latest_price.isSome ∧ res.min_price.isSome ∧
      res.max_price.isSome ∧ res.avg_price.isSome) ∧
    ∃ res0, analyze_ticker [⟨0, "X", 0, 0⟩] "X" 2 = .ok res0 ∧
      res0.pct_change = none := by
  obtain ⟨-, r, rs, -, hres⟩ := analyze_ok_elim h
  constructor
  · rw [hres]
    simp [analyzePrices]
  · refine ⟨analyzePrices "X" 0 [], rfl, ?_⟩
    simp [analyzePrices]

theorem analysis_fields_not_null_witness :
    ((analyzePrices "B" 7 []).latest_price.isSome ∧
      (analyzePrices "B" 7 []).min_price.isSome ∧
      (analyzePrices "B" 7 []).max_price.isSome ∧
      (analyzePrices "B" 7 []).avg_price.isSome) ∧
    ∃ res0, analyze_ticker [⟨0, "X", 0, 0⟩] "X" 2 = .ok res0 ∧
      res0.pct_change = none :=
  @analysis_fields_not_null [⟨0, "B", 7, 0⟩] "B" 3 (analyzePrices "B" 7 []) rfl

/-- C3: `query_latest_n` returns the `n` most recent rows for the ticker,
ordered by timestamp descending (newest-first): the result has length
exactly `min n (number of stored rows for the ticker)` — so it is never
short when more than `n` rows are stored — and is a sublist of the
timestamp-descending ordering of all the ticker's rows; every returned row
is a stored row of that ticker; every row left out is no newer than every
row returned; and when the ticker has at most `n` stored rows it returns
exactly all of them (as a permutation, still newest-first by the sortedness
conjunct), without padding. -/
theorem latest_n_spec (db : List Stock) (t : String) (n : ℕ) :
    (get_stocks_latest_n db t n).length ≤ n ∧
    (get_stocks_latest_n db t n).length = min n (get_stocks db t).length ∧
    List.Sublist (get_stocks_latest_n db t n)
      (List.insertionSort tsDesc (get_stocks db t)) ∧
    List.Sorted tsDesc (get_stocks_latest_n db t n) ∧
    (∀ r ∈ get_stocks_latest_n db t n, r ∈ get_stocks db t) ∧
    (∀ r ∈ get_stocks_latest_n db t n,
      ∀ s ∈ (List.insertionSort tsDesc (get_stocks db t)).drop n,
        s.timestamp ≤ r.timestamp) ∧
    ((get_stocks db t).length ≤ n →
      List.Perm (get_stocks_latest_n db t n) (get_stocks db t)) := by
  have hdef : get_stocks_latest_n db t n =
      (List.insertionSort tsDesc (get_stocks db t)).take n := rfl
  have hsorted : List.Sorted tsDesc (List.insertionSort tsDesc (get_stocks db t)) :=
    List.sorted_insertionSort tsDesc _
  refine ⟨?_, ?_, ?_, ?_, ?_, ?_, ?_⟩
  · rw [hdef, List.length_take]
    exact min_le_left _ _
  · rw [hdef, List.length_take, List.length_insertionSort]
  · rw [hdef]
    exact List.take_sublist _ _
  · rw [hdef]
    exact List.Pairwise.sublist (List.take_sublist _ _) hsorted
  · intro r hr
    rw [hdef] at hr
    exact ((List.perm_insertionSort tsDesc _).mem_iff).mp (List.mem_of_mem_take hr)
  · intro r hr s hs
    rw [hdef] at hr
    exact hsorted.rel_of_mem_take_of_mem_drop hr hs
  · intro hlen
    rw [hdef, List.take_of_length_le (by rw [List.length_insertionSort]; exact hlen)]
    exact List.perm_insertionSort tsDesc _

theorem latest_n_spec_witness :
    (get_stocks_latest_n [⟨0, "Q", 1, 5⟩, ⟨1, "Q", 2, 6⟩, ⟨2, "Q", 3, 7⟩] "Q" 2).length =
      min 2 (get_stocks [⟨0, "Q", 1, 5⟩, ⟨1, "Q", 2, 6⟩, ⟨2, "Q", 3, 7⟩] "Q").length ∧
    List.Perm (get_stocks_latest_n [⟨0, "Q", 1, 5⟩, ⟨1, "Q", 2, 6⟩] "Q" 2)
      (get_stocks [⟨0, "Q", 1, 5⟩, ⟨1, "Q", 2, 6⟩] "Q") :=
  ⟨(latest_n_spec [⟨0, "Q", 1, 5⟩, ⟨1, "Q", 2, 6⟩, ⟨2, "Q", 3, 7⟩] "Q" 2).2.1,
   (latest_n_spec [⟨0, "Q", 1, 5⟩, ⟨1, "Q", 2, 6⟩] "Q" 2).2.2.2.2.2.2 (by decide)⟩

/-- C4: for a ticker with no stored records, `GET /history`, `GET /analysis`
(for any transport-accepted `n`) and `GET /chart` all answer the 404 whose
detail contains the uppercased ticker.  These handlers read the store and
return only a response — mirroring the source, which performs no insert on
these paths — so the store is unchanged by construction. -/
theorem no_records_not_found (db : List Stock) (t : String) (n : ℕ)
    (h2 : 2 ≤ n) (h1000 : n ≤ 1000) (hempty : get_stocks db t = []) :
    stock_history db t = .notFound (notFoundMsg t) ∧
    analyze_ticker db t n = .notFound (notFoundMsg t) ∧
    chart_ticker db t n = .notFound (notFoundMsg t) ∧
    ∃ pre post, notFoundMsg t = pre ++ strUpper t ++ post := by
  have hl : get_stocks_latest_n db t n = [] := by
    rw [show get_stocks_latest_n db t n =
        (List.insertionSort tsDesc (get_stocks db t)).take n from rfl, hempty]
    exact List.take_nil
  refine ⟨?_, ?_, ?_, "No records found for ticker \x27", "\x27", rfl⟩
  · simp only [stock_history, hempty]
    rfl
  · unfold analyze_ticker
    rw [if_pos (And.intro h2 h1000), hl]
    rfl
  · unfold chart_ticker
    rw [if_pos (And.intro h2 h1000), hl]
    rfl

theorem no_records_not_found_witness :
    stock_history [⟨0, "OTHER", 1, 0⟩] "none" = .notFound (notFoundMsg "none") ∧
    analyze_ticker [⟨0, "OTHER", 1, 0⟩] "none" 20 = .notFound (notFoundMsg "none") ∧
    chart_ticker [⟨0, "OTHER", 1, 0⟩] "none" 20 = .notFound (notFoundMsg "none") ∧
    ∃ pre post, notFoundMsg "none" = pre ++ strUpper "none" ++ post :=
  no_records_not_found [⟨0, "OTHER", 1, 0⟩] "none" 20 (by norm_num) (by norm_num)
    (by decide)

/-- C5: `GET /stock/{ticker}` answers 404 — with the uppercased ticker in the
detail — and persists nothing when the provider window is empty; otherwise it
appends exactly one record (the last Close, stored at the uppercased ticker)
and answers with the uppercased ticker and that price rounded to 2
decimals. -/
theorem fetch_stock_spec (provider : String → List ℚ) (db : List Stock)
    (t : String) (now : ℕ) :
    (provider t = [] →
      fetch_stock provider db t now = (.notFound (noDataMsg t), db) ∧
      ∃ pre post, noDataMsg t = pre ++ strUpper t ++ post) ∧
    ∀ p ps, provider t = p :: ps →
      fetch_stock provider db t now =
        (.ok ⟨strUpper t, round2 (ps.getLastD p)⟩,
         db ++ [⟨db.length, strUpper t, ps.getLastD p, now⟩]) := by
  constructor
  · intro hp
    constructor
    · unfold fetch_stock
      rw [hp]
    · exact ⟨"No data found for ticker \x27", "\x27", rfl⟩
  · intro p ps hp
    unfold fetch_stock
    rw [hp]
    rfl

theorem fetch_stock_spec_witness :
    fetch_stock (fun _ => [7, 5]) [] "msft" 3 =
      (.ok ⟨"MSFT", 5⟩, [⟨0, "MSFT", 5, 3⟩]) := by
  have h := (fetch_stock_spec (fun _ => [7, 5]) [] "msft" 3).2 7 [5] rfl
  rw [h]
  have e1 : strUpper "msft" = "MSFT" := rfl
  have e2 : ([5] : List ℚ).getLastD 7 = 5 := rfl
  have e3 : round2 5 = 5 := by rw [round2_eq]; norm_num
  rw [e1, e2, e3]
  rfl

/-- C6: on `/analysis` and `/chart` the window-size parameter is an integer
with inclusive bounds 2..1000 and default 20; any out-of-range value is
rejected by the transport validation for every store content whatsoever — in
particular the rejection never consults the store or the analytics. -/
theorem window_param_validation (db : List Stock) (t : String) (n : ℕ)
    (h : n < 2 ∨ 1000 < n) :
    analyze_ticker db t n = .validationError ∧
    chart_ticker db t n = .validationError ∧
    2 ≤ defaultWindowN ∧ defaultWindowN ≤ 1000 ∧ defaultWindowN = 20 := by
  have hcond : ¬ (2 ≤ n ∧ n ≤ 1000) := by omega
  refine ⟨?_, ?_, by norm_num [defaultWindowN], by norm_num [defaultWindowN], rfl⟩
  · unfold analyze_ticker
    rw [if_neg hcond]
  · unfold chart_ticker
    rw [if_neg hcond]

theorem window_param_validation_witness :
    analyze_ticker [⟨0, "ABC", 1, 0⟩] "ABC" 1 = .validationError ∧
    chart_ticker [⟨0, "ABC", 1, 0⟩] "ABC" 1 = .validationError ∧
    2 ≤ defaultWindowN ∧ defaultWindowN ≤ 1000 ∧ defaultWindowN = 20 :=
  window_param_validation [⟨0, "ABC", 1, 0⟩] "ABC" 1 (Or.inl (by norm_num))

/-- C7: ticker matching is case-insensitive end to end: inserting via
`add_stock` with ticker `"aapl"` stores the row normalized to `"AAPL"`, and a
subsequent `GET /history/{t}` for any case variant `t` of AAPL answers 200
with that record among the items. -/
theorem ticker_case_insensitive (db : List Stock) (p : ℚ) (now : ℕ)
    (t : String) (ht : strUpper t = "AAPL") :
    (add_stock db "aapl" p now).1.ticker = "AAPL" ∧
    ∃ items, stock_history (add_stock db "aapl" p now).2 t = .ok items ∧
      (⟨"AAPL", p, now⟩ : HistoryItem) ∈ items := by
  have hup : strUpper "aapl" = "AAPL" := rfl
  have hs : (add_stock db "aapl" p now).1 = ⟨db.length, "AAPL", p, now⟩ := by
    simp [add_stock, hup]
  have hdb2 : (add_stock db "aapl" p now).2 =
      db ++ [⟨db.length, "AAPL", p, now⟩] := by
    simp [add_stock, hup]
  have hmem : (⟨db.length, "AAPL", p, now⟩ : Stock) ∈
      get_stocks (db ++ [⟨db.length, "AAPL", p, now⟩]) t := by
    rw [get_stocks, ht]
    exact List.mem_filter.mpr
      ⟨List.mem_append_right _ (List.mem_singleton_self _), by simp⟩
  have hne : ¬ ((get_stocks (db ++ [⟨db.length, "AAPL", p, now⟩]) t).isEmpty = true) := by
    rw [List.isEmpty_iff]
    intro hnil
    rw [hnil] at hmem
    exact absurd hmem (List.not_mem_nil _)
  refine ⟨by rw [hs], ?_⟩
  rw [hdb2]
  simp only [stock_history]
  rw [if_neg hne]
  refine ⟨_, rfl, ?_⟩
  exact List.mem_map.mpr ⟨⟨db.length, "AAPL", p, now⟩, hmem, rfl⟩

theorem ticker_case_insensitive_witness :
    (add_stock [] "aapl" 10 5).1.ticker = "AAPL" ∧
    ∃ items, stock_history (add_stock [] "aapl" 10 5).2 "AaPl" = .ok items ∧
      (⟨"AAPL", 10, 5⟩ : HistoryItem) ∈ items :=
  ticker_case_insensitive [] 10 5 "AaPl" rfl

end StockTracker
